import Mathlib

/-!
Verification model of the odds-dashboard frontend core
(`frontend/src/lib/stores/odds.ts`, `frontend/src/lib/websocket/client.ts`,
`frontend/src/lib/websocket/protocol.ts`, `OddsCell.svelte`).

JavaScript `Record<string, T>` objects are modelled as association lists
(`Obj T`) kept in insertion order, with JS semantics for property access,
assignment (overwrite in place, append when new), and `delete`.
Strings stay `String`; JS string truthiness (`""` is falsy, every other
string — including `"0"` — is truthy) is modelled by `jsTruthy`.
`parseInt(s, 10)` and `parseFloat(s)` are modelled over decimal notation,
returning `none` where JS returns `NaN`.
-/

/-- A JavaScript object `Record<string, α>`: entries in insertion order. -/
abbrev Obj (α : Type) : Type := List (String × α)

/-- JS property read `l[k]`: the value at the first matching key. -/
def Obj.lookup {α : Type} : Obj α → String → Option α
  | [], _ => none
  | (k', v) :: rest, k => if k' = k then some v else Obj.lookup rest k

/-- JS property write `l[k] = v`: overwrite in place, append when absent. -/
def Obj.set {α : Type} : Obj α → String → α → Obj α
  | [], k, v => [(k, v)]
  | (k', v') :: rest, k, v =>
      if k' = k then (k', v) :: rest else (k', v') :: Obj.set rest k v

/-- JS `delete l[k]`: drop the entry with key `k`. -/
def Obj.erase {α : Type} : Obj α → String → Obj α
  | [], _ => []
  | (k', v') :: rest, k => if k' = k then rest else (k', v') :: Obj.erase rest k

/-- `Object.keys l`. -/
def Obj.keys {α : Type} (l : Obj α) : List String := l.map Prod.fst

/-- Real JS objects never hold the same key twice. -/
def Obj.WF {α : Type} (l : Obj α) : Prop := (l.map Prod.fst).Nodup

instance {α : Type} (l : Obj α) : Decidable (Obj.WF l) :=
  inferInstanceAs (Decidable (l.map Prod.fst).Nodup)

/-- Two-level read `l[k1][k2]` (with `undefined` propagation). -/
def Obj.lookup2 {α : Type} (l : Obj (Obj α)) (k1 k2 : String) : Option α :=
  (Obj.lookup l k1).bind (fun inner => Obj.lookup inner k2)

/-- JS truthiness of a `string | null` value: only `null` and `""` are falsy. -/
def jsTruthy : Option String → Bool
  | none => false
  | some s => s ≠ ""

namespace Obj

variable {α : Type}

theorem lookup_set_self (l : Obj α) (k : String) (v : α) :
    (Obj.set l k v).lookup k = some v := by
  induction l with
  | nil => simp [Obj.set, Obj.lookup]
  | cons p rest ih =>
      obtain ⟨k', v'⟩ := p
      by_cases h : k' = k <;> simp [Obj.set, Obj.lookup, h, ih]

theorem lookup_set_ne (l : Obj α) {k a : String} (v : α) (h : a ≠ k) :
    (Obj.set l k v).lookup a = l.lookup a := by
  have h' : k ≠ a := Ne.symm h
  induction l with
  | nil => simp [Obj.set, Obj.lookup, h']
  | cons p rest ih =>
      obtain ⟨k', v'⟩ := p
      by_cases hk : k' = k
      · subst hk
        simp [Obj.set, Obj.lookup, h']
      · simp [Obj.set, Obj.lookup, hk, ih]

theorem lookup_erase_ne (l : Obj α) {k a : String} (h : a ≠ k) :
    (Obj.erase l k).lookup a = l.lookup a := by
  have h' : k ≠ a := Ne.symm h
  induction l with
  | nil => simp [Obj.erase]
  | cons p rest ih =>
      obtain ⟨k', v'⟩ := p
      by_cases hk : k' = k
      · subst hk
        simp [Obj.erase, Obj.lookup, h']
      · simp [Obj.erase, Obj.lookup, hk, ih]

theorem lookup_eq_none_of_not_mem_keys {l : Obj α} {k : String}
    (h : k ∉ l.keys) : l.lookup k = none := by
  induction l with
  | nil => rfl
  | cons p rest ih =>
      obtain ⟨k', v'⟩ := p
      simp only [Obj.keys, List.map_cons, List.mem_cons] at h
      push_neg at h
      have h1 : k' ≠ k := Ne.symm h.1
      have h2 : k ∉ Obj.keys rest := by
        intro hm
        exact h.2 (by simpa [Obj.keys] using hm)
      simp [Obj.lookup, h1, ih h2]

theorem lookup_erase_self {l : Obj α} {k : String} (hWF : l.WF) :
    (Obj.erase l k).lookup k = none := by
  induction l with
  | nil => rfl
  | cons p rest ih =>
      obtain ⟨k', v'⟩ := p
      simp only [Obj.WF, List.map_cons, List.nodup_cons] at hWF
      by_cases hk : k' = k
      · subst hk
        have : k' ∉ Obj.keys rest := by simpa [Obj.keys] using hWF.1
        simpa [Obj.erase] using lookup_eq_none_of_not_mem_keys this
      · simp [Obj.erase, Obj.lookup, hk, ih hWF.2]

theorem mem_keys_set {l : Obj α} {k a : String} {v : α} :
    a ∈ (Obj.set l k v).keys ↔ a ∈ l.keys ∨ a = k := by
  induction l with
  | nil => simp [Obj.set, Obj.keys]
  | cons p rest ih =>
      obtain ⟨k', v'⟩ := p
      by_cases hk : k' = k
      · subst hk
        simp [Obj.set, Obj.keys]
        tauto
      · simp [Obj.set, Obj.keys, hk] at ih ⊢
        tauto

theorem mem_keys_erase_of_mem {l : Obj α} {k a : String}
    (h : a ∈ (Obj.erase l k).keys) : a ∈ l.keys := by
  induction l with
  | nil => simpa [Obj.erase] using h
  | cons p rest ih =>
      obtain ⟨k', v'⟩ := p
      by_cases hk : k' = k
      · subst hk
        simp only [Obj.erase, if_pos rfl] at h
        simp only [Obj.keys, List.map_cons, List.mem_cons]
        right
        simpa [Obj.keys] using h
      · simp only [Obj.erase, if_neg hk, Obj.keys, List.map_cons, List.mem_cons] at h ⊢
        rcases h with h | h
        · exact Or.inl h
        · exact Or.inr (by simpa [Obj.keys] using ih (by simpa [Obj.keys] using h))

theorem WF_set {l : Obj α} (k : String) (v : α) (hWF : l.WF) :
    (Obj.set l k v).WF := by
  induction l with
  | nil => simp [Obj.set, Obj.WF]
  | cons p rest ih =>
      obtain ⟨k', v'⟩ := p
      simp only [Obj.WF, List.map_cons, List.nodup_cons] at hWF
      by_cases hk : k' = k
      · subst hk
        have hs : Obj.set ((k', v') :: rest) k' v = (k', v) :: rest := by
          simp [Obj.set]
        rw [hs]
        simp only [Obj.WF, List.map_cons, List.nodup_cons]
        exact hWF
      · simp only [Obj.set, if_neg hk]
        simp only [Obj.WF, List.map_cons, List.nodup_cons]
        refine ⟨?_, ih hWF.2⟩
        intro hmem
        rcases (mem_keys_set (l := rest) (k := k) (a := k') (v := v)).1
            (by simpa [Obj.keys] using hmem) with h1 | h1
        · exact hWF.1 (by simpa [Obj.keys] using h1)
        · exact hk h1

theorem WF_erase {l : Obj α} (k : String) (hWF : l.WF) :
    (Obj.erase l k).WF := by
  induction l with
  | nil => simp [Obj.erase, Obj.WF]
  | cons p rest ih =>
      obtain ⟨k', v'⟩ := p
      simp only [Obj.WF, List.map_cons, List.nodup_cons] at hWF
      by_cases hk : k' = k
      · simpa [Obj.erase, hk, Obj.WF] using hWF.2
      · simp only [Obj.erase, if_neg hk]
        simp only [Obj.WF, List.map_cons, List.nodup_cons]
        refine ⟨?_, ih hWF.2⟩
        intro hmem
        exact hWF.1 (by
          simpa [Obj.keys] using
            mem_keys_erase_of_mem (l := rest) (k := k) (by simpa [Obj.keys] using hmem))

theorem lookup_mem {l : Obj α} {k : String} {v : α}
    (h : l.lookup k = some v) : (k, v) ∈ l := by
  induction l with
  | nil => simp [Obj.lookup] at h
  | cons p rest ih =>
      obtain ⟨k', v'⟩ := p
      by_cases hk : k' = k
      · subst hk
        simp [Obj.lookup] at h
        simp [h]
      · simp [Obj.lookup, hk] at h
        simp [ih h]

theorem mem_set_elim {l : Obj α} {k : String} {v : α} {p : String × α}
    (h : p ∈ Obj.set l k v) : p = (k, v) ∨ p ∈ l := by
  induction l with
  | nil => simpa [Obj.set] using h
  | cons q rest ih =>
      obtain ⟨k', v'⟩ := q
      by_cases hk : k' = k
      · subst hk
        have hs : Obj.set ((k', v') :: rest) k' v = (k', v) :: rest := by
          simp [Obj.set]
        rw [hs] at h
        rcases List.mem_cons.1 h with h1 | h1
        · exact Or.inl h1
        · exact Or.inr (List.mem_cons_of_mem _ h1)
      · have hs : Obj.set ((k', v') :: rest) k v = (k', v') :: Obj.set rest k v := by
          simp [Obj.set, hk]
        rw [hs] at h
        rcases List.mem_cons.1 h with h1 | h1
        · exact Or.inr (h1 ▸ List.mem_cons_self _ _)
        · rcases ih h1 with h2 | h2
          · exact Or.inl h2
          · exact Or.inr (List.mem_cons_of_mem _ h2)

theorem mem_erase_elim {l : Obj α} {k : String} {p : String × α}
    (h : p ∈ Obj.erase l k) : p ∈ l := by
  induction l with
  | nil => simp [Obj.erase] at h
  | cons q rest ih =>
      obtain ⟨k', v'⟩ := q
      by_cases hk : k' = k
      · subst hk
        have hs : Obj.erase ((k', v') :: rest) k' = rest := by
          simp [Obj.erase]
        rw [hs] at h
        exact List.mem_cons_of_mem _ h
      · have hs : Obj.erase ((k', v') :: rest) k = (k', v') :: Obj.erase rest k := by
          simp [Obj.erase, hk]
        rw [hs] at h
        rcases List.mem_cons.1 h with h1 | h1
        · exact h1 ▸ List.mem_cons_self _ _
        · exact List.mem_cons_of_mem _ (ih h1)

theorem isSome_lookup_of_mem {l : Obj α} {k : String} {v : α}
    (h : (k, v) ∈ l) : (l.lookup k).isSome := by
  induction l with
  | nil => simp at h
  | cons q rest ih =>
      obtain ⟨k', v'⟩ := q
      by_cases hk : k' = k
      · simp [Obj.lookup, hk]
      · simp at h
        rcases h with h | h
        · exact absurd h.1.symm hk
        · simpa [Obj.lookup, hk] using ih h

end Obj

/-- Decimal digit test, as in JS number parsing. -/
def isWsChar (c : Char) : Bool := c == ' ' || c == '\t' || c == '\n' || c == '\r'

/-- Greedy decimal-digit scan: accumulated value, digits consumed, rest. -/
def parseDigits : Nat → Nat → List Char → Nat × Nat × List Char
  | acc, cnt, [] => (acc, cnt, [])
  | acc, cnt, c :: rest =>
      if c.isDigit then parseDigits (10 * acc + (c.toNat - 48)) (cnt + 1) rest
      else (acc, cnt, c :: rest)

/-- Model of JS `parseInt(s, 10)`: skip whitespace, optional sign, longest
digit prefix; `none` where JS yields `NaN` (no digits). -/
def parseIntJs (s : String) : Option Int :=
  let cs := s.data.dropWhile isWsChar
  match cs with
  | '-' :: rest =>
      let r := parseDigits 0 0 rest
      if r.2.1 = 0 then none else some (-(r.1 : Int))
  | '+' :: rest =>
      let r := parseDigits 0 0 rest
      if r.2.1 = 0 then none else some ((r.1 : Int))
  | _ =>
      let r := parseDigits 0 0 cs
      if r.2.1 = 0 then none else some ((r.1 : Int))

/-- An exactly represented decimal number `m / 10 ^ e` (mantissa and
decimal places), the value a JS number holds for the line strings the feed
uses; comparisons are by value via cross-multiplication. -/
abbrev DecNum : Type := Int × Nat

/-- Value-level `<` on decimals: `x.1 / 10^x.2 < y.1 / 10^y.2`. -/
def dvalLt (x y : DecNum) : Prop := x.1 * 10 ^ y.2 < y.1 * 10 ^ x.2

/-- Value-level `==` on decimals (JS number equality). -/
def dvalEq (x y : DecNum) : Prop := x.1 * 10 ^ y.2 = y.1 * 10 ^ x.2

instance (x y : DecNum) : Decidable (dvalLt x y) :=
  inferInstanceAs (Decidable (x.1 * 10 ^ y.2 < y.1 * 10 ^ x.2))

instance (x y : DecNum) : Decidable (dvalEq x y) :=
  inferInstanceAs (Decidable (x.1 * 10 ^ y.2 = y.1 * 10 ^ x.2))

/-- Model of JS `parseFloat(s)` restricted to plain decimal notation
(sign, digits, optional fraction); `none` where JS yields `NaN`. -/
def parseFloatJs (s : String) : Option DecNum :=
  let cs0 := s.data.dropWhile isWsChar
  let sc : Int × List Char :=
    match cs0 with
    | '-' :: r => (-1, r)
    | '+' :: r => (1, r)
    | _ => (1, cs0)
  let ipr := parseDigits 0 0 sc.2
  match ipr.2.2 with
  | '.' :: r =>
      let fpr := parseDigits 0 0 r
      if ipr.2.1 + fpr.2.1 = 0 then none
      else some (sc.1 * ((ipr.1 : Int) * 10 ^ fpr.2.1 + (fpr.1 : Int)), fpr.2.1)
  | _ => if ipr.2.1 = 0 then none else some (sc.1 * (ipr.1 : Int), 0)

/-- `OutcomeData` from `protocol.ts`: one priced outcome at one sportsbook. -/
structure OutcomeData where
  odds : Option String
  outcome_name : String
  outcome_line : Option String
  outcome_over_under : Option String
  outcome_target : Option String
  previous_odds : Option String
  timestamp : String
  deriving DecidableEq

/-- `SnapshotMessage` from `protocol.ts` (the `type: 'snapshot'` tag is
implied by the Lean type). -/
structure SnapshotMessage where
  sport : String
  game_id : String
  home_team : String
  away_team : String
  game_description : String
  market : Option String
  odds : Obj (Obj OutcomeData)
  deriving DecidableEq

/-- `UpdateMessage` from `protocol.ts` (the `type: 'update'` tag is implied
by the Lean type). -/
structure UpdateMessage where
  sport : String
  game_id : String
  home_team : String
  away_team : String
  game_description : String
  market : Option String
  odds : Obj (Obj OutcomeData)
  deriving DecidableEq

/-- `OddsSnapshot` from `stores/odds.ts`. -/
structure OddsSnapshot where
  sport : String
  gameId : String
  homeTeam : String
  awayTeam : String
  gameDescription : String
  market : Option String
  odds : Obj (Obj OutcomeData)
  loading : Bool
  deriving DecidableEq

/-- `applySnapshot` from `stores/odds.ts`: `oddsData.set` of a fresh record
built only from the message; `loading` cleared. -/
def applySnapshot (msg : SnapshotMessage) (_current : OddsSnapshot) : OddsSnapshot :=
  { sport := msg.sport
    gameId := msg.game_id
    homeTeam := msg.home_team
    awayTeam := msg.away_team
    gameDescription := msg.game_description
    market := msg.market
    odds := msg.odds
    loading := false }

/-- The inner loop of `applyUpdate`: fold one mentioned sportsbook's update
entries over its existing outcome set (`delete` on null odds, assign
otherwise). -/
def applyBook (base updates : Obj OutcomeData) : Obj OutcomeData :=
  updates.foldl
    (fun acc p => if p.2.odds = none then Obj.erase acc p.1 else Obj.set acc p.1 p.2)
    base

/-- The outer loop of `applyUpdate` over `Object.entries(msg.odds)`: merge
each mentioned book, then drop it if its resulting outcome set is empty. -/
def applyUpdateOdds (msgOdds current : Obj (Obj OutcomeData)) : Obj (Obj OutcomeData) :=
  msgOdds.foldl
    (fun acc p =>
      let merged := applyBook ((Obj.lookup acc p.1).getD []) p.2
      if merged = [] then Obj.erase acc p.1 else Obj.set acc p.1 merged)
    current

/-- `applyUpdate` from `stores/odds.ts`: merge the update's odds into the
current snapshot, leaving all other snapshot fields unchanged. -/
def applyUpdate (msg : UpdateMessage) (current : OddsSnapshot) : OddsSnapshot :=
  { current with odds := applyUpdateOdds msg.odds current.odds }

/-- A fold step preserves a predicate it maintains on every element. -/
theorem foldl_preserves {α β : Type} (P : α → Prop) (f : α → β → α) :
    ∀ (l : List β) (a : α), (∀ acc b, b ∈ l → P acc → P (f acc b)) → P a →
      P (l.foldl f a)
  | [], _, _, ha => ha
  | b :: l, a, hstep, ha =>
      foldl_preserves P f l (f a b)
        (fun acc b' hb' => hstep acc b' (List.mem_cons_of_mem _ hb'))
        (hstep a b (List.mem_cons_self _ _) ha)

theorem applyBook_cons (base : Obj OutcomeData) (k1 : String) (o1 : OutcomeData)
    (rest : Obj OutcomeData) :
    applyBook base ((k1, o1) :: rest) =
      applyBook (if o1.odds = none then Obj.erase base k1 else Obj.set base k1 o1) rest := rfl

theorem applyBook_lookup_not_mem {base updates : Obj OutcomeData} {k : String}
    (h : k ∉ Obj.keys updates) :
    (applyBook base updates).lookup k = base.lookup k := by
  induction updates generalizing base with
  | nil => rfl
  | cons p rest ih =>
      obtain ⟨k1, o1⟩ := p
      simp only [Obj.keys, List.map_cons, List.mem_cons] at h
      push_neg at h
      have hne : k ≠ k1 := h.1
      have hrest : k ∉ Obj.keys rest := by
        intro hm
        exact h.2 (by simpa [Obj.keys] using hm)
      rw [applyBook_cons, ih hrest]
      by_cases hodds : o1.odds = none
      · simp [hodds, Obj.lookup_erase_ne _ hne]
      · simp [hodds, Obj.lookup_set_ne _ _ hne]

theorem applyBook_WF {base : Obj OutcomeData} (updates : Obj OutcomeData)
    (h : base.WF) : (applyBook base updates).WF := by
  refine foldl_preserves Obj.WF _ updates base ?_ h
  intro acc b _ hacc
  by_cases hodds : b.2.odds = none
  · simpa [hodds] using Obj.WF_erase b.1 hacc
  · simpa [hodds] using Obj.WF_set b.1 b.2 hacc

theorem applyBook_lookup {base updates : Obj OutcomeData} {k : String}
    (hu : updates.WF) (hb : base.WF) :
    (applyBook base updates).lookup k =
      (match updates.lookup k with
       | some o => if o.odds = none then none else some o
       | none => base.lookup k) := by
  induction updates generalizing base with
  | nil => rfl
  | cons p rest ih =>
      obtain ⟨k1, o1⟩ := p
      simp only [Obj.WF, List.map_cons, List.nodup_cons] at hu
      have hu2 : Obj.WF rest := hu.2
      rw [applyBook_cons]
      by_cases hk : k1 = k
      · subst hk
        have hnm : k1 ∉ Obj.keys rest := by simpa [Obj.keys] using hu.1
        rw [applyBook_lookup_not_mem hnm]
        by_cases hodds : o1.odds = none
        · simp [hodds, Obj.lookup, Obj.lookup_erase_self hb]
        · simp [hodds, Obj.lookup, Obj.lookup_set_self]
      · have hne : k ≠ k1 := fun hh => hk hh.symm
        by_cases hodds : o1.odds = none
        · rw [if_pos hodds, ih hu2 (Obj.WF_erase k1 hb)]
          simp [Obj.lookup, hk, Obj.lookup_erase_ne _ hne]
        · rw [if_neg hodds, ih hu2 (Obj.WF_set k1 o1 hb)]
          simp [Obj.lookup, hk, Obj.lookup_set_ne _ _ hne]

theorem applyUpdateOdds_cons (cur : Obj (Obj OutcomeData)) (b : String)
    (outs : Obj OutcomeData) (rest : Obj (Obj OutcomeData)) :
    applyUpdateOdds ((b, outs) :: rest) cur =
      applyUpdateOdds rest
        (if applyBook ((Obj.lookup cur b).getD []) outs = []
         then Obj.erase cur b
         else Obj.set cur b (applyBook ((Obj.lookup cur b).getD []) outs)) := rfl

theorem applyUpdateOdds_lookup_not_mem {msgOdds cur : Obj (Obj OutcomeData)}
    {book : String} (h : book ∉ Obj.keys msgOdds) :
    (applyUpdateOdds msgOdds cur).lookup book = cur.lookup book := by
  induction msgOdds generalizing cur with
  | nil => rfl
  | cons p rest ih =>
      obtain ⟨b, outs⟩ := p
      simp only [Obj.keys, List.map_cons, List.mem_cons] at h
      push_neg at h
      have hne : book ≠ b := h.1
      have hrest : book ∉ Obj.keys rest := by
        intro hm
        exact h.2 (by simpa [Obj.keys] using hm)
      rw [applyUpdateOdds_cons, ih hrest]
      by_cases hmerged : applyBook ((Obj.lookup cur b).getD []) outs = []
      · simp [hmerged, Obj.lookup_erase_ne _ hne]
      · simp [hmerged, Obj.lookup_set_ne _ _ hne]

theorem applyUpdateOdds_lookup {msgOdds cur : Obj (Obj OutcomeData)}
    {book : String} {outs : Obj OutcomeData}
    (hWF : Obj.WF msgOdds) (hmem : (book, outs) ∈ msgOdds)
    (hcurWF : Obj.WF cur) :
    (applyUpdateOdds msgOdds cur).lookup book =
      (if applyBook ((Obj.lookup cur book).getD []) outs = [] then none
       else some (applyBook ((Obj.lookup cur book).getD []) outs)) := by
  induction msgOdds generalizing cur with
  | nil => simp at hmem
  | cons p rest ih =>
      obtain ⟨b, os⟩ := p
      simp only [Obj.WF, List.map_cons, List.nodup_cons] at hWF
      rcases List.mem_cons.1 hmem with hhead | htail
      · have hb : b = book := (congrArg Prod.fst hhead.symm)
        have hos : os = outs := (congrArg Prod.snd hhead.symm)
        subst hb
        subst hos
        have hnm : b ∉ Obj.keys rest := by simpa [Obj.keys] using hWF.1
        rw [applyUpdateOdds_cons, applyUpdateOdds_lookup_not_mem hnm]
        by_cases hmerged : applyBook ((Obj.lookup cur b).getD []) os = []
        · simp [hmerged, Obj.lookup_erase_self hcurWF]
        · simp [hmerged, Obj.lookup_set_self]
      · have hbne : b ≠ book := by
          intro hh
          subst hh
          exact hWF.1 (by
            simpa [Obj.keys] using List.mem_map_of_mem Prod.fst htail)
        have hne : book ≠ b := fun hh => hbne hh.symm
        rw [applyUpdateOdds_cons]
        by_cases hmerged : applyBook ((Obj.lookup cur b).getD []) os = []
        · rw [if_pos hmerged,
            ih hWF.2 htail (Obj.WF_erase b hcurWF)]
          rw [Obj.lookup_erase_ne _ hne]
        · rw [if_neg hmerged,
            ih hWF.2 htail (Obj.WF_set b _ hcurWF)]
          rw [Obj.lookup_set_ne _ _ hne]

theorem lookup2_eq_lookup_getD {α : Type} (l : Obj (Obj α)) (k1 k2 : String) :
    Obj.lookup2 l k1 k2 = ((Obj.lookup l k1).getD []).lookup k2 := by
  cases h : Obj.lookup l k1 <;> simp [Obj.lookup2, h, Obj.lookup]

/-- Concrete store states used to exercise `applyUpdate`. -/
def odML110 : OutcomeData :=
  ⟨some "-110", "moneyline", none, none, some "Home", none, "t1"⟩

def odML105 : OutcomeData :=
  ⟨some "-105", "moneyline", none, none, some "Home", none, "t2"⟩

def odML120 : OutcomeData :=
  ⟨some "-120", "moneyline", none, none, some "Away", none, "t3"⟩

def odML108 : OutcomeData :=
  ⟨some "-108", "moneyline", none, none, some "Home", some "-105", "t4"⟩

def c1Snap : OddsSnapshot :=
  ⟨"mlb", "g1", "Home", "Away", "Home vs Away", some "moneyline",
    [("dk", [("o1", odML110), ("o2", odML120)])], false⟩

def c1Msg : UpdateMessage :=
  ⟨"mlb", "g1", "Home", "Away", "Home vs Away", some "moneyline",
    [("dk", [("o1", odML105)])]⟩

def c2Snap : OddsSnapshot :=
  ⟨"mlb", "g1", "Home", "Away", "Home vs Away", some "moneyline",
    [("draftkings", [("o1", odML110)]), ("fanduel", [("o1", odML105)])], false⟩

def c2Msg : UpdateMessage :=
  ⟨"mlb", "g1", "Home", "Away", "Home vs Away", some "moneyline",
    [("fanduel", [("o1", odML108)])]⟩

/-- C1 (counterexample). The claim asserts `applyUpdate` replaces a
mentioned sportsbook's ENTIRE outcome set, so an outcome key held before
but absent from the update's set for that book would not survive. In the
code the merge is per outcome key: with prior `dk = {o1, o2}` and update
`dk = {o1}` (non-null odds), key `o2` survives. -/
theorem applyUpdate_full_replacement_false :
    ¬ (∀ (s : OddsSnapshot) (m : UpdateMessage) (book : String)
        (outs : Obj OutcomeData) (k : String),
        (book, outs) ∈ m.odds → Obj.lookup outs k = none →
        Obj.lookup2 (applyUpdate m s).odds book k = none) := by
  intro h
  have hc := h c1Snap c1Msg "dk" [("o1", odML105)] "o2" (by decide) (by decide)
  revert hc
  decide

/-- C1 (amended). `applyUpdate` merges per outcome key into each mentioned
sportsbook's existing outcome set: an update outcome with null odds deletes
that key, a non-null one inserts or overwrites it, and outcome keys present
before but absent from the update survive unchanged; a mentioned sportsbook
whose resulting outcome set is empty is removed from the snapshot. -/
theorem applyUpdate_mentioned_book_merge (m : UpdateMessage) (s : OddsSnapshot)
    (book : String) (outs : Obj OutcomeData) (k : String)
    (hm : Obj.WF m.odds) (hmem : (book, outs) ∈ m.odds) (houts : Obj.WF outs)
    (hsWF : Obj.WF s.odds) (hinner : ∀ p ∈ s.odds, Obj.WF p.2) :
    (Obj.lookup2 (applyUpdate m s).odds book k =
      (match Obj.lookup outs k with
       | some o => if o.odds = none then none else some o
       | none => Obj.lookup2 s.odds book k))
    ∧ (Obj.lookup (applyUpdate m s).odds book = none ↔
        applyBook ((Obj.lookup s.odds book).getD []) outs = []) := by
  have hbaseWF : ((Obj.lookup s.odds book).getD ([] : Obj OutcomeData)).WF := by
    cases hl : Obj.lookup s.odds book with
    | none => simp [Obj.WF]
    | some inner =>
        simpa using hinner (book, inner) (Obj.lookup_mem hl)
  have hmain : (applyUpdateOdds m.odds s.odds).lookup book =
      (if applyBook ((Obj.lookup s.odds book).getD []) outs = [] then none
       else some (applyBook ((Obj.lookup s.odds book).getD []) outs)) :=
    applyUpdateOdds_lookup hm hmem hsWF
  have hbk : (applyBook ((Obj.lookup s.odds book).getD []) outs).lookup k =
      (match Obj.lookup outs k with
       | some o => if o.odds = none then none else some o
       | none => ((Obj.lookup s.odds book).getD []).lookup k) :=
    applyBook_lookup houts hbaseWF
  constructor
  · rw [lookup2_eq_lookup_getD, lookup2_eq_lookup_getD]
    show ((Obj.lookup (applyUpdateOdds m.odds s.odds) book).getD []).lookup k = _
    rw [hmain]
    by_cases hmerged : applyBook ((Obj.lookup s.odds book).getD []) outs = []
    · rw [if_pos hmerged]
      rw [hmerged] at hbk
      cases ho : Obj.lookup outs k with
      | none =>
          rw [ho] at hbk
          exact hbk
      | some o =>
          rw [ho] at hbk
          have hbk' : Obj.lookup ([] : Obj OutcomeData) k =
              (if o.odds = none then none else some o) := hbk
          by_cases hodds : o.odds = none
          · simp [Obj.lookup, hodds]
          · rw [if_neg hodds] at hbk'
            simp [Obj.lookup] at hbk'
    · rw [if_neg hmerged]
      exact hbk
  · show (applyUpdateOdds m.odds s.odds).lookup book = none ↔ _
    rw [hmain]
    by_cases hmerged : applyBook ((Obj.lookup s.odds book).getD []) outs = []
    · simp [hmerged]
    · simp [hmerged]

/-- Witness for C1's amended theorem: in `c1Snap`/`c1Msg`, key `o1` is
overwritten, key `o2` survives, and `dk` is kept because the merged set is
non-empty. -/
theorem applyUpdate_mentioned_book_merge_witness :
    (Obj.lookup2 (applyUpdate c1Msg c1Snap).odds "dk" "o2" =
      (match Obj.lookup [("o1", odML105)] "o2" with
       | some o => if o.odds = none then none else some o
       | none => Obj.lookup2 c1Snap.odds "dk" "o2"))
    ∧ (Obj.lookup (applyUpdate c1Msg c1Snap).odds "dk" = none ↔
        applyBook ((Obj.lookup c1Snap.odds "dk").getD []) [("o1", odML105)] = []) :=
  applyUpdate_mentioned_book_merge c1Msg c1Snap "dk" [("o1", odML105)] "o2"
    (by decide) (by decide) (by decide) (by decide) (by decide)

/-- C2. A sportsbook key not present in the update's odds mapping keeps
exactly the same outcome map (same keys, same values) after `applyUpdate`. -/
theorem applyUpdate_unmentioned_book_frame (m : UpdateMessage) (s : OddsSnapshot)
    (book : String) (h : book ∉ Obj.keys m.odds) :
    Obj.lookup (applyUpdate m s).odds book = Obj.lookup s.odds book :=
  applyUpdateOdds_lookup_not_mem h

/-- Witness for C2: an update mentioning only `fanduel` leaves the
`draftkings` entry of the snapshot unchanged. -/
theorem applyUpdate_unmentioned_book_frame_witness :
    ("draftkings" ∉ Obj.keys c2Msg.odds)
    ∧ Obj.lookup (applyUpdate c2Msg c2Snap).odds "draftkings" =
        Obj.lookup c2Snap.odds "draftkings" :=
  ⟨by decide,
    applyUpdate_unmentioned_book_frame c2Msg c2Snap "draftkings" (by decide)⟩

/-- C7. `applySnapshot` is a constant function of the message: applying it
twice equals applying it once, the result does not depend on the prior
state, and it clears `loading`. -/
theorem applySnapshot_const_idempotent (msg : SnapshotMessage)
    (s s' : OddsSnapshot) :
    applySnapshot msg (applySnapshot msg s) = applySnapshot msg s
    ∧ applySnapshot msg s = applySnapshot msg s'
    ∧ (applySnapshot msg s).loading = false :=
  ⟨rfl, rfl, rfl⟩

/-- `OddsRow` from `stores/odds.ts`. -/
structure OddsRow where
  label : String
  outcomeName : String
  outcomeLine : Option String
  overUnder : Option String
  target : Option String
  cells : Obj OutcomeData
  bestBook : Option String
  deriving DecidableEq

/-- Label derivation from the `oddsRows` loop (JS `||`/`&&` truthiness on
the nullable string fields). -/
def mkLabel (o : OutcomeData) : String :=
  if jsTruthy o.outcome_over_under && jsTruthy o.outcome_line then
    (if o.outcome_over_under.getD "" = "O" then "Over " else "Under ")
      ++ o.outcome_line.getD ""
  else if jsTruthy o.outcome_target then
    o.outcome_target.getD ""
      ++ (if jsTruthy o.outcome_line then " " ++ o.outcome_line.getD "" else "")
  else o.outcome_name

/-- The row inserted by `rowMap.set(rowKey, {...})` on first sight of a key. -/
def freshRow (o : OutcomeData) : OddsRow :=
  { label := mkLabel o
    outcomeName := o.outcome_name
    outcomeLine := o.outcome_line
    overUnder := o.outcome_over_under
    target := o.outcome_target
    cells := []
    bestBook := none }

/-- `if (!rowMap.has(rowKey)) rowMap.set(rowKey, {...})`. -/
def ensureRow (rowMap : Obj OddsRow) (key : String) (o : OutcomeData) : Obj OddsRow :=
  match Obj.lookup rowMap key with
  | some _ => rowMap
  | none => Obj.set rowMap key (freshRow o)

/-- `const row = rowMap.get(rowKey)!; if (outcome.odds) row.cells[sportsbook] = outcome`. -/
def recordCell (rowMap : Obj OddsRow) (sportsbook key : String) (o : OutcomeData) :
    Obj OddsRow :=
  match Obj.lookup rowMap key with
  | some row =>
      if jsTruthy o.odds then
        Obj.set rowMap key { row with cells := Obj.set row.cells sportsbook o }
      else rowMap
  | none => rowMap

/-- One iteration of the `oddsRows` grid-building loop body. -/
def addOutcome (rowMap : Obj OddsRow) (sportsbook key : String) (o : OutcomeData) :
    Obj OddsRow :=
  recordCell (ensureRow rowMap key o) sportsbook key o

/-- The double loop over `Object.entries($odds.odds)`; the `Map` keeps
first-insertion order, modelled by `Obj`. -/
def buildRowMap (odds : Obj (Obj OutcomeData)) : Obj OddsRow :=
  odds.foldl (fun rm bp => bp.2.foldl (fun rm2 op => addOutcome rm2 bp.1 op.1 op.2) rm) []

/-- `if (!cell.odds) continue; parseInt(cell.odds, 10); if (!isNaN ...)`:
the integer a cell contributes to the best-price scan, if any. -/
def parsedOdds (c : OutcomeData) : Option Int :=
  if jsTruthy c.odds then parseIntJs (c.odds.getD "") else none

/-- One step of the best-odds scan (`bestOdds` starts at `-Infinity`, so
any parsed value beats an empty accumulator; strictly greater replaces). -/
def bestStep (acc : Option (String × Int)) (p : String × OutcomeData) :
    Option (String × Int) :=
  match parsedOdds p.2 with
  | none => acc
  | some n =>
      match acc with
      | none => some (p.1, n)
      | some q => if n > q.2 then some (p.1, n) else acc

/-- The best-odds loop of `oddsRows`. -/
def computeBest (cells : Obj OutcomeData) : Option String :=
  (cells.foldl bestStep none).map Prod.fst

/-- `row.bestBook = bestBook` after the best-odds loop. -/
def finishRow (r : OddsRow) : OddsRow := { r with bestBook := computeBest r.cells }

/-- `a.outcomeLine ? parseFloat(a.outcomeLine) : 0` from the sort
comparator; `none` models `NaN`. -/
def lineNum (r : OddsRow) : Option DecNum :=
  if jsTruthy r.outcomeLine then parseFloatJs (r.outcomeLine.getD "")
  else some ((0 : Int), 0)

/-- The comparator body for two parsed line values: line ascending
(`lineA !== lineB` is JS number-value inequality), then Over before Under,
then label (`localeCompare` modelled as code-point order). -/
def rowCmpTie (a b : OddsRow) (la lb : DecNum) : Ordering :=
  if ¬ dvalEq la lb then (if dvalLt la lb then Ordering.lt else Ordering.gt)
  else if a.overUnder = some "O" ∧ b.overUnder = some "U" then Ordering.lt
  else if a.overUnder = some "U" ∧ b.overUnder = some "O" then Ordering.gt
  else if a.label < b.label then Ordering.lt
  else if b.label < a.label then Ordering.gt
  else Ordering.eq

/-- The sort comparator of `oddsRows`. A `NaN` comparator value is treated
as 0 by `Array.prototype.sort`, hence the `Ordering.eq` fallback when
either line is `NaN`. -/
def rowCmp (a b : OddsRow) : Ordering :=
  match lineNum a, lineNum b with
  | some la, some lb => rowCmpTie a b la lb
  | _, _ => Ordering.eq

/-- "`a` need not come after `b`": the non-strict order induced by the
comparator. -/
def rowLe (a b : OddsRow) : Prop := rowCmp a b ≠ Ordering.gt

instance : DecidableRel rowLe :=
  fun a b => (inferInstance : Decidable (rowCmp a b ≠ Ordering.gt))

/-- `rows.sort(comparator)`: JS `Array.prototype.sort` is stable, modelled
by insertion sort on the comparator's non-strict order. -/
def sortRows (rows : List OddsRow) : List OddsRow := rows.insertionSort rowLe

/-- The rows in `Map` insertion order, before sorting. -/
def preRows (odds : Obj (Obj OutcomeData)) : List OddsRow :=
  (buildRowMap odds).map (fun p => finishRow p.2)

/-- The `oddsRows` derived store as a function of the snapshot. -/
def oddsRows (s : OddsSnapshot) : List OddsRow := sortRows (preRows s.odds)

theorem bestStep_eq_none_iff (acc : Option (String × Int)) (p : String × OutcomeData) :
    bestStep acc p = none ↔ (acc = none ∧ parsedOdds p.2 = none) := by
  cases hp : parsedOdds p.2 with
  | none => cases acc <;> simp [bestStep, hp]
  | some n =>
      cases acc with
      | none => simp [bestStep, hp]
      | some q =>
          simp only [bestStep, hp]
          split <;> simp

theorem bestFold_none_iff (l : Obj OutcomeData) :
    ∀ acc : Option (String × Int),
      List.foldl bestStep acc l = none ↔ (acc = none ∧ ∀ p ∈ l, parsedOdds p.2 = none) := by
  induction l with
  | nil => intro acc; simp
  | cons p l ih =>
      intro acc
      rw [List.foldl_cons, ih (bestStep acc p), bestStep_eq_none_iff]
      constructor
      · rintro ⟨⟨h1, h2⟩, h3⟩
        exact ⟨h1, by
          intro q hq
          rcases List.mem_cons.1 hq with hq | hq
          · exact hq ▸ h2
          · exact h3 q hq⟩
      · rintro ⟨h1, h2⟩
        exact ⟨⟨h1, h2 p (List.mem_cons_self _ _)⟩,
          fun q hq => h2 q (List.mem_cons_of_mem _ hq)⟩

theorem bestFold_spec (l : Obj OutcomeData) :
    ∀ (acc : Option (String × Int)) (b : String) (n : Int),
      List.foldl bestStep acc l = some (b, n) →
      (∀ p ∈ l, ∀ m, parsedOdds p.2 = some m → m ≤ n)
      ∧ ((∃ c, (b, c) ∈ l ∧ parsedOdds c = some n) ∨ acc = some (b, n))
      ∧ (∀ q, acc = some q → q.2 ≤ n) := by
  induction l with
  | nil =>
      intro acc b n h
      have h' : acc = some (b, n) := h
      refine ⟨by simp, Or.inr h', ?_⟩
      intro q hq
      rw [h'] at hq
      have hq' : (b, n) = q := by simpa using hq
      rw [← hq']
  | cons p l ih =>
      intro acc b n h
      rw [List.foldl_cons] at h
      obtain ⟨ihb, iho, iha⟩ := ih (bestStep acc p) b n h
      cases hp : parsedOdds p.2 with
      | none =>
          have hstep : bestStep acc p = acc := by simp [bestStep, hp]
          rw [hstep] at iho iha
          refine ⟨?_, ?_, iha⟩
          · intro q hq m hm
            rcases List.mem_cons.1 hq with hq | hq
            · rw [hq, hp] at hm
              exact absurd hm (by simp)
            · exact ihb q hq m hm
          · rcases iho with ho | ho
            · obtain ⟨c, hc, hcp⟩ := ho
              exact Or.inl ⟨c, List.mem_cons_of_mem _ hc, hcp⟩
            · exact Or.inr ho
      | some np =>
          have hnp : np ≤ n := by
            cases acc with
            | none =>
                have hstep : bestStep none p = some (p.1, np) := by simp [bestStep, hp]
                rw [hstep] at iha
                simpa using iha (p.1, np) rfl
            | some q0 =>
                by_cases hgt : np > q0.2
                · have hstep : bestStep (some q0) p = some (p.1, np) := by
                    simp [bestStep, hp, hgt]
                  rw [hstep] at iha
                  simpa using iha (p.1, np) rfl
                · have hstep : bestStep (some q0) p = some q0 := by
                    simp [bestStep, hp, hgt]
                  rw [hstep] at iha
                  have := iha q0 rfl
                  omega
          refine ⟨?_, ?_, ?_⟩
          · intro q hq m hm
            rcases List.mem_cons.1 hq with hq | hq
            · rw [hq, hp] at hm
              have hnm : np = m := by simpa using hm
              omega
            · exact ihb q hq m hm
          · rcases iho with ho | ho
            · obtain ⟨c, hc, hcp⟩ := ho
              exact Or.inl ⟨c, List.mem_cons_of_mem _ hc, hcp⟩
            · cases acc with
              | none =>
                  have hstep : bestStep none p = some (p.1, np) := by simp [bestStep, hp]
                  rw [hstep] at ho
                  have hb1 : p.1 = b := (Prod.mk.injEq _ _ _ _ ▸ (Option.some.injEq _ _ ▸ ho)).1
                  have hn1 : np = n := (Prod.mk.injEq _ _ _ _ ▸ (Option.some.injEq _ _ ▸ ho)).2
                  exact Or.inl ⟨p.2, by
                    rw [← hb1]
                    exact List.mem_cons_self _ _, by rw [hp, hn1]⟩
              | some q0 =>
                  by_cases hgt : np > q0.2
                  · have hstep : bestStep (some q0) p = some (p.1, np) := by
                      simp [bestStep, hp, hgt]
                    rw [hstep] at ho
                    have hb1 : p.1 = b := (Prod.mk.injEq _ _ _ _ ▸ (Option.some.injEq _ _ ▸ ho)).1
                    have hn1 : np = n := (Prod.mk.injEq _ _ _ _ ▸ (Option.some.injEq _ _ ▸ ho)).2
                    exact Or.inl ⟨p.2, by
                      rw [← hb1]
                      exact List.mem_cons_self _ _, by rw [hp, hn1]⟩
                  · have hstep : bestStep (some q0) p = some q0 := by
                      simp [bestStep, hp, hgt]
                    rw [hstep] at ho
                    exact Or.inr ho
          · intro q hq
            cases acc with
            | none => simp at hq
            | some q0 =>
                have hq0 : q0 = q := by simpa using hq
                rw [← hq0]
                by_cases hgt : np > q0.2
                · omega
                · have hstep : bestStep (some q0) p = some q0 := by simp [bestStep, hp, hgt]
                  rw [hstep] at iha
                  exact iha q0 rfl

theorem computeBest_none_iff (cells : Obj OutcomeData) :
    computeBest cells = none ↔ ∀ p ∈ cells, parsedOdds p.2 = none := by
  unfold computeBest
  rw [Option.map_eq_none']
  rw [bestFold_none_iff]
  simp

theorem computeBest_some (cells : Obj OutcomeData) (b : String)
    (h : computeBest cells = some b) :
    ∃ c n, (b, c) ∈ cells ∧ parsedOdds c = some n ∧
      ∀ p ∈ cells, ∀ m, parsedOdds p.2 = some m → m ≤ n := by
  unfold computeBest at h
  rw [Option.map_eq_some'] at h
  obtain ⟨⟨b', n⟩, hfold, hb⟩ := h
  have hb' : b' = b := hb
  subst hb'
  obtain ⟨hbound, horigin, _⟩ := bestFold_spec cells none b' n hfold
  rcases horigin with ho | ho
  · obtain ⟨c, hc, hcp⟩ := ho
    exact ⟨c, n, hc, hcp, hbound⟩
  · exact absurd ho (by simp)

theorem finishRow_cells (r : OddsRow) : (finishRow r).cells = r.cells := rfl

theorem finishRow_bestBook (r : OddsRow) :
    (finishRow r).bestBook = computeBest r.cells := rfl

theorem mem_oddsRows {s : OddsSnapshot} {r : OddsRow} (h : r ∈ oddsRows s) :
    ∃ p ∈ buildRowMap s.odds, r = finishRow p.2 := by
  have hp : r ∈ preRows s.odds :=
    (List.perm_insertionSort rowLe (preRows s.odds)).mem_iff.1 h
  obtain ⟨p, hpm, hpe⟩ := List.mem_map.1 hp
  exact ⟨p, hpm, hpe.symm⟩

/-- C5. In every projected row, `bestBook` is `none` exactly when no cell
contributes a parsed integer, and any selected `bestBook` points at a cell
whose parsed odds value is greatest among the row's cells. -/
theorem oddsRows_bestBook_max (s : OddsSnapshot) (row : OddsRow)
    (h : row ∈ oddsRows s) :
    (row.bestBook = none ↔ ∀ p ∈ row.cells, parsedOdds p.2 = none)
    ∧ (∀ b, row.bestBook = some b →
        ∃ c n, (b, c) ∈ row.cells ∧ parsedOdds c = some n ∧
          ∀ p ∈ row.cells, ∀ m, parsedOdds p.2 = some m → m ≤ n) := by
  obtain ⟨p, _, hre⟩ := mem_oddsRows h
  subst hre
  constructor
  · rw [finishRow_bestBook, finishRow_cells]
    simpa using computeBest_none_iff p.2.cells
  · intro b hb
    rw [finishRow_bestBook] at hb
    rw [finishRow_cells]
    exact computeBest_some p.2.cells b hb

/-- Outcomes used by the best-price witness: the spec's worked example. -/
def odP120 : OutcomeData :=
  ⟨some "+120", "moneyline", none, none, some "Home", none, "t5"⟩

def odP150 : OutcomeData :=
  ⟨some "+150", "moneyline", none, none, some "Home", none, "t6"⟩

def odSuspended : OutcomeData :=
  ⟨none, "moneyline", none, none, some "Home", none, "t7"⟩

def c5Snap : OddsSnapshot :=
  ⟨"mlb", "g1", "Home", "Away", "Home vs Away", some "moneyline",
    [("bookA", [("o1", odP120)]), ("bookB", [("o1", odP150)]),
      ("bookC", [("o1", odSuspended)])], false⟩

def c5Row : OddsRow :=
  ⟨"Home", "moneyline", none, none, some "Home",
    [("bookA", odP120), ("bookB", odP150)], some "bookB"⟩

/-- Witness for C5: the spec's example `{bookA: "+120", bookB: "+150",
bookC: null}` selects `bookB`. -/
theorem oddsRows_bestBook_max_witness :
    (oddsRows c5Snap = [c5Row] ∧ c5Row.bestBook = some "bookB")
    ∧ ((c5Row.bestBook = none ↔ ∀ p ∈ c5Row.cells, parsedOdds p.2 = none)
       ∧ (∀ b, c5Row.bestBook = some b →
           ∃ c n, (b, c) ∈ c5Row.cells ∧ parsedOdds c = some n ∧
             ∀ p ∈ c5Row.cells, ∀ m, parsedOdds p.2 = some m → m ≤ n)) :=
  ⟨⟨by decide, by decide⟩, oddsRows_bestBook_max c5Snap c5Row (by decide)⟩

/-- Every cell recorded in the row map was inserted under the
`if (outcome.odds)` truthiness guard. -/
def cellsTruthy (rm : Obj OddsRow) : Prop :=
  ∀ q ∈ rm, ∀ p ∈ q.2.cells, jsTruthy p.2.odds = true

theorem ensureRow_preserves_cellsTruthy (rm : Obj OddsRow) (key : String)
    (o : OutcomeData) (h : cellsTruthy rm) : cellsTruthy (ensureRow rm key o) := by
  unfold ensureRow
  cases hl : Obj.lookup rm key with
  | some row => exact h
  | none =>
      intro q hq p hp
      rcases Obj.mem_set_elim hq with hq1 | hq1
      · rw [hq1] at hp
        simp [freshRow] at hp
      · exact h q hq1 p hp

theorem recordCell_preserves_cellsTruthy (rm : Obj OddsRow)
    (sportsbook key : String) (o : OutcomeData) (h : cellsTruthy rm) :
    cellsTruthy (recordCell rm sportsbook key o) := by
  unfold recordCell
  split
  · rename_i row hl
    by_cases ht : jsTruthy o.odds
    · rw [if_pos ht]
      intro q hq p hp
      rcases Obj.mem_set_elim hq with hq1 | hq1
      · rw [hq1] at hp
        rcases Obj.mem_set_elim hp with hp1 | hp1
        · rw [hp1]
          exact ht
        · exact h (key, row) (Obj.lookup_mem hl) p hp1
      · exact h q hq1 p hp
    · rw [if_neg ht]
      exact h
  · exact h

theorem addOutcome_preserves_cellsTruthy (rm : Obj OddsRow)
    (sportsbook key : String) (o : OutcomeData) (h : cellsTruthy rm) :
    cellsTruthy (addOutcome rm sportsbook key o) :=
  recordCell_preserves_cellsTruthy _ _ _ _
    (ensureRow_preserves_cellsTruthy _ _ _ h)

theorem buildRowMap_cellsTruthy (odds : Obj (Obj OutcomeData)) :
    cellsTruthy (buildRowMap odds) := by
  refine foldl_preserves cellsTruthy _ odds [] ?_ ?_
  · intro acc bp _ hacc
    refine foldl_preserves cellsTruthy _ bp.2 acc ?_ hacc
    intro acc2 op _ hacc2
    exact addOutcome_preserves_cellsTruthy acc2 bp.1 op.1 op.2 hacc2
  · intro q hq
    simp at hq

def odZero : OutcomeData :=
  ⟨some "0", "moneyline", none, none, some "Home", none, "t8"⟩

def c10Snap : OddsSnapshot :=
  ⟨"mlb", "g1", "Home", "Away", "Home vs Away", some "moneyline",
    [("bookA", [("o1", odZero)])], false⟩

/-- C10 (counterexample). The claim asserts an outcome with odds `"0"` is
excluded from the row's cells and can never be `bestBook`. In JS only the
empty string is falsy, so `"0"` passes the `if (outcome.odds)` guard: in
`c10Snap` it is included and selected as best. -/
theorem oddsRows_zero_excluded_false :
    ¬ (∀ row ∈ oddsRows c10Snap,
        Obj.lookup row.cells "bookA" = none ∧ row.bestBook ≠ some "bookA") := by
  decide

/-- C10 (amended). Inclusion in a row's `cells` is decided by JS string
truthiness, which drops only null and `""` (not `"0"`): every recorded cell
has truthy odds, and `bestBook` only ever names a book present in `cells`,
so only null/empty-odds outcomes are barred from being best. -/
theorem oddsRows_cells_truthiness (s : OddsSnapshot) (row : OddsRow)
    (h : row ∈ oddsRows s) :
    (∀ book c, Obj.lookup row.cells book = some c → jsTruthy c.odds = true)
    ∧ (∀ b, row.bestBook = some b → (Obj.lookup row.cells b).isSome) := by
  obtain ⟨p, hp, hre⟩ := mem_oddsRows h
  subst hre
  constructor
  · intro book c hc
    rw [finishRow_cells] at hc
    exact buildRowMap_cellsTruthy s.odds p hp (book, c) (Obj.lookup_mem hc)
  · intro b hb
    rw [finishRow_bestBook] at hb
    rw [finishRow_cells]
    obtain ⟨c, n, hmem, _, _⟩ := computeBest_some p.2.cells b hb
    exact Obj.isSome_lookup_of_mem hmem

def c10Row : OddsRow :=
  ⟨"Home", "moneyline", none, none, some "Home", [("bookA", odZero)], some "bookA"⟩

/-- Witness for C10's amended theorem: the `"0"`-odds cell is present,
truthy, and selected as best. -/
theorem oddsRows_cells_truthiness_witness :
    (oddsRows c10Snap = [c10Row]
      ∧ Obj.lookup c10Row.cells "bookA" = some odZero
      ∧ c10Row.bestBook = some "bookA")
    ∧ ((∀ book c, Obj.lookup c10Row.cells book = some c → jsTruthy c.odds = true)
       ∧ (∀ b, c10Row.bestBook = some b → (Obj.lookup c10Row.cells b).isSome)) :=
  ⟨⟨by decide, by decide, by decide⟩,
    oddsRows_cells_truthiness c10Snap c10Row (by decide)⟩

/-- `WebSocket.readyState` values relevant to the client. -/
inductive ReadyState
  | connectingRS
  | openRS
  | closingRS
  | closedRS
  deriving DecidableEq

/-- The mutable fields of `OddsWebSocketClient` (`websocket/client.ts`):
`ws` is `none` when no socket object exists; timers are modelled by the
delay they were armed with. -/
structure WSClientState where
  wsReadyState : Option ReadyState
  reconnectDelay : Nat
  reconnectTimerPending : Option Nat
  pingActive : Bool
  intentionalClose : Bool
  deriving DecidableEq

/-- `reconnectDelay = 1000` initial value. -/
def initialReconnectDelay : Nat := 1000

/-- `maxReconnectDelay = 30000`. -/
def maxReconnectDelayMs : Nat := 30000

/-- `scheduleReconnect()`: arm the timer with the current delay, then
double the delay capped at the ceiling. -/
def scheduleReconnect (s : WSClientState) : WSClientState :=
  { s with
      reconnectTimerPending := some s.reconnectDelay
      reconnectDelay := min (s.reconnectDelay * 2) maxReconnectDelayMs }

/-- The `onopen` handler: report `connected`, reset backoff, start the
heartbeat. -/
def handleOpen (s : WSClientState) : WSClientState :=
  { s with
      wsReadyState := some ReadyState.openRS
      reconnectDelay := initialReconnectDelay
      pingActive := true }

/-- The `onclose` handler: report `disconnected`, stop the heartbeat, and
schedule a reconnect unless the close was intentional. -/
def handleClose (s : WSClientState) : WSClientState :=
  let s1 := { s with wsReadyState := some ReadyState.closedRS, pingActive := false }
  if s1.intentionalClose then s1 else scheduleReconnect s1

/-- `ClientMessage` from `protocol.ts`. -/
inductive ClientMessage
  | subscribeMsg (sport gameId market : String)
  | unsubscribeMsg
  | pingMsg
  deriving DecidableEq

/-- `JSON.stringify` of a client message (field values are inlined without
JS string escaping, which the dashboard never needs). -/
def encodeClientMessage : ClientMessage → String
  | ClientMessage.subscribeMsg sport gameId market =>
      "\x7b\"type\":\"subscribe\",\"sport\":\"" ++ sport
        ++ "\",\"game_id\":\"" ++ gameId
        ++ "\",\"market\":\"" ++ market ++ "\"\x7d"
  | ClientMessage.unsubscribeMsg => "\x7b\"type\":\"unsubscribe\"\x7d"
  | ClientMessage.pingMsg => "\x7b\"type\":\"ping\"\x7d"

/-- What `send` did with a message. -/
inductive SendOutcome
  | discardedWithWarning
  | sent (frame : String)
  deriving DecidableEq

/-- `send(message)`: guard on `this.ws?.readyState !== WebSocket.OPEN`
(warn and return), else `this.ws.send(JSON.stringify(message))`. -/
def send (s : WSClientState) (m : ClientMessage) : WSClientState × SendOutcome :=
  if s.wsReadyState ≠ some ReadyState.openRS then (s, SendOutcome.discardedWithWarning)
  else (s, SendOutcome.sent (encodeClientMessage m))

theorem handleClose_not_intentional (t : WSClientState)
    (h : t.intentionalClose = false) :
    handleClose t =
      scheduleReconnect
        { t with wsReadyState := some ReadyState.closedRS, pingActive := false } := by
  unfold handleClose
  rw [if_neg (by simp [h])]

/-- C6. After `n ≥ 1` consecutive unclean closes starting from a client
whose backoff is at the floor (fresh construction or just-connected), the
`n`-th armed reconnect delay is `min (1000 * 2 ^ (n - 1)) 30000`; and after
a successful connect the next close arms a 1000 ms delay again. -/
theorem backoff_nth_delay (s : WSClientState) (n : Nat)
    (h1 : s.reconnectDelay = 1000) (h2 : s.intentionalClose = false)
    (hn : 1 ≤ n) :
    (handleClose^[n] s).reconnectTimerPending =
      some (min (1000 * 2 ^ (n - 1)) 30000)
    ∧ (handleClose (handleOpen (handleClose^[n] s))).reconnectTimerPending =
        some 1000 := by
  have hdelay : ∀ k : Nat, (handleClose^[k] s).reconnectDelay =
      min (1000 * 2 ^ k) 30000 ∧ (handleClose^[k] s).intentionalClose = false := by
    intro k
    induction k with
    | zero =>
        simp [h1, h2]
    | succ k ih =>
        rw [Function.iterate_succ_apply', handleClose_not_intentional _ ih.2]
        unfold scheduleReconnect
        constructor
        · show min ((handleClose^[k] s).reconnectDelay * 2) maxReconnectDelayMs = _
          rw [ih.1]
          unfold maxReconnectDelayMs
          rw [pow_succ]
          have h2k : 0 < 2 ^ k := Nat.pos_pow_of_pos k (by omega)
          omega
        · exact ih.2
  constructor
  · obtain ⟨m, rfl⟩ : ∃ m, n = m + 1 := ⟨n - 1, by omega⟩
    rw [Function.iterate_succ_apply', handleClose_not_intentional _ (hdelay m).2]
    unfold scheduleReconnect
    show some (handleClose^[m] s).reconnectDelay = _
    rw [(hdelay m).1]
    simp
  · have hic : (handleOpen (handleClose^[n] s)).intentionalClose = false :=
      (hdelay n).2
    rw [handleClose_not_intentional _ hic]
    unfold scheduleReconnect
    show some (handleOpen (handleClose^[n] s)).reconnectDelay = some 1000
    rfl

/-- A freshly constructed client (`new OddsWebSocketClient`). -/
def freshClient : WSClientState :=
  ⟨none, initialReconnectDelay, none, false, false⟩

/-- Witness for C6: seven straight unclean closes arm
1s, 2s, 4s, 8s, 16s, 30s, 30s; the 7th is capped at 30000. -/
theorem backoff_nth_delay_witness :
    (freshClient.reconnectDelay = 1000 ∧ freshClient.intentionalClose = false
      ∧ 1 ≤ 7)
    ∧ ((handleClose^[7] freshClient).reconnectTimerPending =
        some (min (1000 * 2 ^ (7 - 1)) 30000)
       ∧ (handleClose (handleOpen (handleClose^[7] freshClient))).reconnectTimerPending =
           some 1000) :=
  ⟨⟨rfl, rfl, by omega⟩, backoff_nth_delay freshClient 7 rfl rfl (by omega)⟩

/-- C9. Sending while the transport is not open discards the message with
a warning and leaves the entire client state (socket, backoff delay,
timers, flags) unchanged; sending while open emits the encoded frame. -/
theorem send_not_connected_discards (s : WSClientState) (m : ClientMessage) :
    (s.wsReadyState ≠ some ReadyState.openRS →
      send s m = (s, SendOutcome.discardedWithWarning))
    ∧ (s.wsReadyState = some ReadyState.openRS →
      send s m = (s, SendOutcome.sent (encodeClientMessage m))) := by
  constructor
  · intro h
    unfold send
    rw [if_pos h]
  · intro h
    unfold send
    rw [if_neg (by simp [h])]

/-- Witness for C9: a fresh (never-connected) client discards a ping with
a warning; an open client sends the encoded subscribe frame. -/
theorem send_not_connected_discards_witness :
    (freshClient.wsReadyState ≠ some ReadyState.openRS
      ∧ send freshClient ClientMessage.pingMsg =
          (freshClient, SendOutcome.discardedWithWarning))
    ∧ ((handleOpen freshClient).wsReadyState = some ReadyState.openRS
      ∧ send (handleOpen freshClient) ClientMessage.unsubscribeMsg =
          ((handleOpen freshClient),
            SendOutcome.sent (encodeClientMessage ClientMessage.unsubscribeMsg))) :=
  ⟨⟨by decide,
      (send_not_connected_discards freshClient ClientMessage.pingMsg).1 (by decide)⟩,
    ⟨rfl,
      (send_not_connected_discards (handleOpen freshClient)
        ClientMessage.unsubscribeMsg).2 rfl⟩⟩

/-- The movement annotation of `OddsCell.svelte`. -/
inductive Movement
  | up
  | down
  deriving DecidableEq

/-- The reactive movement block of `OddsCell.svelte`: when
`data?.previous_odds && data.odds && data.previous_odds !== data.odds` and
both values parse as integers, assign `curr > prev ? 'up' : 'down'`;
otherwise leave the current annotation in place (the timer is the separate
3000 ms expiry, outside this pure comparison). -/
def movementUpdate (d : OutcomeData) (current : Option Movement) : Option Movement :=
  match d.previous_odds, d.odds with
  | some p, some c =>
      if p ≠ "" ∧ c ≠ "" ∧ p ≠ c then
        match parseIntJs p, parseIntJs c with
        | some prev, some curr =>
            if curr > prev then some Movement.up else some Movement.down
        | _, _ => current
      else current
  | _, _ => current

def odEqualInts : OutcomeData :=
  ⟨some "+110", "moneyline", none, none, some "Home", some "110", "t10"⟩

/-- C8 (counterexample). The claim says that when odds and previous_odds
differ as strings but parse to equal integers, neither "up" nor "down" is
assigned. The code computes `curr > prev ? 'up' : 'down'`, so the equal
case falls into "down": `previous_odds = "110"`, `odds = "+110"` yields
`some down`. -/
theorem movement_equal_ints_neither_false :
    ¬ (∀ (d : OutcomeData) (m0 : Option Movement) (p c : String) (ip ic : Int),
        d.previous_odds = some p → d.odds = some c → p ≠ c →
        parseIntJs p = some ip → parseIntJs c = some ic →
        (movementUpdate d m0 = some Movement.down ↔ ic < ip)) := by
  intro h
  have hc := h odEqualInts none "110" "+110" 110 110 rfl rfl (by decide)
    (by decide) (by decide)
  have hd : movementUpdate odEqualInts none = some Movement.down := by decide
  have := hc.mp hd
  omega

theorem parseIntJs_ne_empty {p : String} {n : Int} (h : parseIntJs p = some n) :
    p ≠ "" := by
  intro hpe
  rw [hpe] at h
  have hnone : parseIntJs "" = none := by decide
  rw [hnone] at h
  exact Option.noConfusion h

/-- C8 (amended). For a cell whose odds and previous_odds are both
non-null, differ as strings, and both parse as integers, the annotation is
"up" exactly when the current value is greater than the previous, and
"down" exactly when it is less than OR EQUAL (strings that differ but
parse to equal integers are marked "down"). -/
theorem movement_up_down (d : OutcomeData) (m0 : Option Movement)
    (p c : String) (ip ic : Int)
    (hp : d.previous_odds = some p) (hc : d.odds = some c) (hne : p ≠ c)
    (hip : parseIntJs p = some ip) (hic : parseIntJs c = some ic) :
    (movementUpdate d m0 = some Movement.up ↔ ip < ic)
    ∧ (movementUpdate d m0 = some Movement.down ↔ ic ≤ ip) := by
  have hpne : p ≠ "" := parseIntJs_ne_empty hip
  have hcne : c ≠ "" := parseIntJs_ne_empty hic
  obtain ⟨dodds, dname, dline, dou, dtarget, dprev, dts⟩ := d
  have hp' : dprev = some p := hp
  have hc' : dodds = some c := hc
  subst hp'
  subst hc'
  have hm : movementUpdate ⟨some c, dname, dline, dou, dtarget, some p, dts⟩ m0 =
      (if ic > ip then some Movement.up else some Movement.down) := by
    show (if p ≠ "" ∧ c ≠ "" ∧ p ≠ c then
            match parseIntJs p, parseIntJs c with
            | some prev, some curr =>
                if curr > prev then some Movement.up else some Movement.down
            | _, _ => m0
          else m0)
        = (if ic > ip then some Movement.up else some Movement.down)
    rw [if_pos ⟨hpne, hcne, hne⟩, hip, hic]
  rw [hm]
  by_cases hlt : ip < ic
  · rw [if_pos (by omega)]
    refine ⟨⟨fun _ => hlt, fun _ => rfl⟩, ⟨fun hcontra => ?_, fun hle => by omega⟩⟩
    exact absurd hcontra (by decide)
  · rw [if_neg (by omega)]
    refine ⟨⟨fun hcontra => ?_, fun hgt => by omega⟩, ⟨fun _ => by omega, fun _ => rfl⟩⟩
    exact absurd hcontra (by decide)

def odDown : OutcomeData :=
  ⟨some "-120", "moneyline", none, none, some "Home", some "-110", "t11"⟩

/-- Witness for C8's amended theorem: `-110 → -120` is flagged "down". -/
theorem movement_up_down_witness :
    (odDown.previous_odds = some "-110" ∧ odDown.odds = some "-120"
      ∧ parseIntJs "-110" = some (-110) ∧ parseIntJs "-120" = some (-120))
    ∧ ((movementUpdate odDown none = some Movement.up ↔ (-110 : Int) < -120)
       ∧ (movementUpdate odDown none = some Movement.down ↔ (-120 : Int) ≤ -110)) :=
  ⟨⟨rfl, rfl, by decide, by decide⟩,
    movement_up_down odDown none "-110" "-120" (-110) (-120) rfl rfl
      (by decide) (by decide) (by decide)⟩

/-- `outcome_over_under` marks an Over/Under row. -/
def isOURow (r : OddsRow) : Prop :=
  r.overUnder = some "O" ∨ r.overUnder = some "U"

instance (r : OddsRow) : Decidable (isOURow r) :=
  inferInstanceAs (Decidable (r.overUnder = some "O" ∨ r.overUnder = some "U"))

theorem dvalLt_ne {x y : DecNum} (h : dvalLt x y) : ¬ dvalEq x y :=
  ne_of_lt h

theorem dvalEq_symm {x y : DecNum} (h : dvalEq x y) : dvalEq y x := h.symm

theorem dval_trichotomy (x y : DecNum) :
    dvalLt x y ∨ dvalEq x y ∨ dvalLt y x :=
  lt_trichotomy (x.1 * 10 ^ y.2) (y.1 * 10 ^ x.2)

theorem dvalLt_trans {x y z : DecNum} (h1 : dvalLt x y) (h2 : dvalLt y z) :
    dvalLt x z := by
  unfold dvalLt at h1 h2 ⊢
  have hxe : (0 : Int) < 10 ^ x.2 := pow_pos (by omega) _
  have hye : (0 : Int) < 10 ^ y.2 := pow_pos (by omega) _
  have hze : (0 : Int) < 10 ^ z.2 := pow_pos (by omega) _
  nlinarith [mul_lt_mul_of_pos_right h1 hze, mul_lt_mul_of_pos_right h2 hxe]

theorem dvalLt_of_eq_of_lt {x y z : DecNum} (h1 : dvalEq x y) (h2 : dvalLt y z) :
    dvalLt x z := by
  unfold dvalEq at h1
  unfold dvalLt at h2 ⊢
  have hxe : (0 : Int) < 10 ^ x.2 := pow_pos (by omega) _
  have hye : (0 : Int) < 10 ^ y.2 := pow_pos (by omega) _
  have hze : (0 : Int) < 10 ^ z.2 := pow_pos (by omega) _
  nlinarith [mul_lt_mul_of_pos_right h2 hxe]

theorem dvalLt_of_lt_of_eq {x y z : DecNum} (h1 : dvalLt x y) (h2 : dvalEq y z) :
    dvalLt x z := by
  unfold dvalLt at h1 ⊢
  unfold dvalEq at h2
  have hxe : (0 : Int) < 10 ^ x.2 := pow_pos (by omega) _
  have hye : (0 : Int) < 10 ^ y.2 := pow_pos (by omega) _
  have hze : (0 : Int) < 10 ^ z.2 := pow_pos (by omega) _
  nlinarith [mul_lt_mul_of_pos_right h1 hze]

theorem dvalEq_trans {x y z : DecNum} (h1 : dvalEq x y) (h2 : dvalEq y z) :
    dvalEq x z := by
  unfold dvalEq at h1 h2 ⊢
  have hye : (0 : Int) < 10 ^ y.2 := pow_pos (by omega) _
  have hmul : x.1 * 10 ^ z.2 * 10 ^ y.2 = z.1 * 10 ^ x.2 * 10 ^ y.2 := by
    linear_combination 10 ^ z.2 * h1 + 10 ^ x.2 * h2
  exact mul_right_cancel₀ (ne_of_gt hye) hmul

theorem rowCmpTie_of_lt (a b : OddsRow) {la lb : DecNum} (h : dvalLt la lb) :
    rowCmpTie a b la lb = Ordering.lt := by
  unfold rowCmpTie
  rw [if_pos (dvalLt_ne h), if_pos h]

theorem dvalLt_asymm {x y : DecNum} (h : dvalLt x y) : ¬ dvalLt y x :=
  lt_asymm h

theorem rowCmpTie_of_gt (a b : OddsRow) {la lb : DecNum} (h : dvalLt lb la) :
    rowCmpTie a b la lb = Ordering.gt := by
  unfold rowCmpTie
  rw [if_pos (fun he => dvalLt_ne h (dvalEq_symm he)), if_neg (dvalLt_asymm h)]

theorem rowCmpTie_eqv_ne_gt_iff (a b : OddsRow) {la lb : DecNum}
    (h : dvalEq la lb) :
    rowCmpTie a b la lb ≠ Ordering.gt ↔
      ((a.overUnder = some "O" ∧ b.overUnder = some "U")
        ∨ (¬(a.overUnder = some "O" ∧ b.overUnder = some "U")
            ∧ ¬(a.overUnder = some "U" ∧ b.overUnder = some "O")
            ∧ a.label ≤ b.label)) := by
  unfold rowCmpTie
  rw [if_neg (not_not_intro h)]
  by_cases h1 : a.overUnder = some "O" ∧ b.overUnder = some "U"
  · rw [if_pos h1]
    simp [h1]
  · rw [if_neg h1]
    by_cases h2 : a.overUnder = some "U" ∧ b.overUnder = some "O"
    · rw [if_pos h2]
      simp [h1, h2]
    · rw [if_neg h2]
      by_cases h3 : a.label < b.label
      · rw [if_pos h3]
        simp [h1, h2, le_of_lt h3]
      · rw [if_neg h3]
        by_cases h4 : b.label < a.label
        · rw [if_pos h4]
          simp [h1, h2, not_le_of_gt h4]
        · rw [if_neg h4]
          simp [h1, h2, le_of_not_gt h4]

theorem rowCmp_of_lines (a b : OddsRow) {la lb : DecNum}
    (ha : lineNum a = some la) (hb : lineNum b = some lb) :
    rowCmp a b = rowCmpTie a b la lb := by
  unfold rowCmp
  rw [ha, hb]

theorem rowCmpTie_gt_swap (a b : OddsRow) (la lb : DecNum)
    (h : rowCmpTie a b la lb = Ordering.gt) :
    rowCmpTie b a lb la = Ordering.lt := by
  rcases dval_trichotomy la lb with hl | hl | hl
  · rw [rowCmpTie_of_lt a b hl] at h
    exact absurd h (by decide)
  · have hsymm : dvalEq lb la := dvalEq_symm hl
    unfold rowCmpTie at h ⊢
    rw [if_neg (not_not_intro hl)] at h
    rw [if_neg (not_not_intro hsymm)]
    by_cases h1 : a.overUnder = some "O" ∧ b.overUnder = some "U"
    · rw [if_pos h1] at h
      exact absurd h (by decide)
    · rw [if_neg h1] at h
      by_cases h2 : a.overUnder = some "U" ∧ b.overUnder = some "O"
      · rw [if_pos ⟨h2.2, h2.1⟩]
      · rw [if_neg h2] at h
        by_cases h3 : a.label < b.label
        · rw [if_pos h3] at h
          exact absurd h (by decide)
        · rw [if_neg h3] at h
          by_cases h4 : b.label < a.label
          · rw [if_neg (fun hc => h2 ⟨hc.2, hc.1⟩), if_neg (fun hc => h1 ⟨hc.2, hc.1⟩),
              if_pos h4]
          · rw [if_neg h4] at h
            exact absurd h (by decide)
  · rw [rowCmpTie_of_gt a b hl] at h
    rw [rowCmpTie_of_lt b a hl]

theorem rowCmp_eq_of_isNone {a b : OddsRow}
    (h : lineNum a = none ∨ lineNum b = none) : rowCmp a b = Ordering.eq := by
  unfold rowCmp
  rcases h with h | h
  · rw [h]
  · rw [h]
    cases lineNum a <;> rfl

theorem rowLe_total (a b : OddsRow) : rowLe a b ∨ rowLe b a := by
  by_cases h : rowCmp a b = Ordering.gt
  · right
    unfold rowLe
    intro hgt
    cases ha : lineNum a with
    | none =>
        rw [rowCmp_eq_of_isNone (Or.inl ha)] at h
        exact absurd h (by decide)
    | some la =>
        cases hb : lineNum b with
        | none =>
            rw [rowCmp_eq_of_isNone (Or.inr hb)] at h
            exact absurd h (by decide)
        | some lb =>
            rw [rowCmp_of_lines a b ha hb] at h
            rw [rowCmp_of_lines b a hb ha] at hgt
            rw [rowCmpTie_gt_swap a b la lb h] at hgt
            exact absurd hgt (by decide)
  · exact Or.inl h

theorem rowLe_trans_local {a b c : OddsRow} {la lb lc : DecNum}
    (ha : lineNum a = some la) (hb : lineNum b = some lb) (hc : lineNum c = some lc)
    (hab : dvalEq la lb → (isOURow a ↔ isOURow b))
    (hbc : dvalEq lb lc → (isOURow b ↔ isOURow c))
    (h1 : rowLe a b) (h2 : rowLe b c) : rowLe a c := by
  unfold rowLe at h1 h2 ⊢
  rw [rowCmp_of_lines a b ha hb] at h1
  rw [rowCmp_of_lines b c hb hc] at h2
  rw [rowCmp_of_lines a c ha hc]
  rcases dval_trichotomy la lb with h | h | h
  · rcases dval_trichotomy lb lc with h' | h' | h'
    · rw [rowCmpTie_of_lt a c (dvalLt_trans h h')]
      decide
    · rw [rowCmpTie_of_lt a c (dvalLt_of_lt_of_eq h h')]
      decide
    · exact absurd (rowCmpTie_of_gt b c h') h2
  · rcases dval_trichotomy lb lc with h' | h' | h'
    · rw [rowCmpTie_of_lt a c (dvalLt_of_eq_of_lt h h')]
      decide
    · have hac : dvalEq la lc := dvalEq_trans h h'
      rw [rowCmpTie_eqv_ne_gt_iff a b h] at h1
      rw [rowCmpTie_eqv_ne_gt_iff b c h'] at h2
      rw [rowCmpTie_eqv_ne_gt_iff a c hac]
      have hclsAB : isOURow a ↔ isOURow b := hab h
      have hclsBC : isOURow b ↔ isOURow c := hbc h'
      rcases h1 with ⟨haO, hbU⟩ | ⟨hnP, hnQ, hlab⟩
      · rcases h2 with ⟨hbO, hcU⟩ | ⟨hnP2, hnQ2, hlbc⟩
        · rw [hbU] at hbO
          exact absurd hbO (by decide)
        · have hcOU : isOURow c := hclsBC.mp (Or.inr hbU)
          rcases hcOU with hcO | hcU
          · exact absurd ⟨hbU, hcO⟩ hnQ2
          · exact Or.inl ⟨haO, hcU⟩
      · rcases h2 with ⟨hbO, hcU⟩ | ⟨hnP2, hnQ2, hlbc⟩
        · have haOU : isOURow a := hclsAB.mpr (Or.inl hbO)
          rcases haOU with haO | haU
          · exact Or.inl ⟨haO, hcU⟩
          · exact absurd ⟨haU, hbO⟩ hnQ
        · refine Or.inr ⟨?_, ?_, le_trans hlab hlbc⟩
          · rintro ⟨haO, hcU⟩
            have hbOU : isOURow b := hclsAB.mp (Or.inl haO)
            rcases hbOU with hbO | hbU
            · exact hnP2 ⟨hbO, hcU⟩
            · exact hnP ⟨haO, hbU⟩
          · rintro ⟨haU, hcO⟩
            have hbOU : isOURow b := hclsAB.mp (Or.inr haU)
            rcases hbOU with hbO | hbU
            · exact hnQ ⟨haU, hbO⟩
            · exact hnQ2 ⟨hbU, hcO⟩
    · exact absurd (rowCmpTie_of_gt b c h') h2
  · exact absurd (rowCmpTie_of_gt a b h) h1

theorem pairwise_orderedInsert_local {α : Type} (R : α → α → Prop)
    [DecidableRel R] (a : α) (l : List α) (hl : l.Pairwise R)
    (htot : ∀ b ∈ l, R a b ∨ R b a)
    (htrans : ∀ b ∈ l, ∀ c ∈ l, R a b → R b c → R a c) :
    (l.orderedInsert R a).Pairwise R := by
  induction l with
  | nil => simp
  | cons b bs ih =>
      rw [List.pairwise_cons] at hl
      by_cases hab : R a b
      · rw [List.orderedInsert, if_pos hab]
        refine List.Pairwise.cons ?_ (List.Pairwise.cons hl.1 hl.2)
        intro x hx
        rcases List.mem_cons.1 hx with hx | hx
        · rw [hx]
          exact hab
        · exact htrans b (List.mem_cons_self _ _) x (List.mem_cons_of_mem _ hx)
            hab (hl.1 x hx)
      · rw [List.orderedInsert, if_neg hab]
        refine List.Pairwise.cons ?_
          (ih hl.2 (fun x hx => htot x (List.mem_cons_of_mem _ hx))
            (fun x hx y hy => htrans x (List.mem_cons_of_mem _ hx)
              y (List.mem_cons_of_mem _ hy)))
        intro x hx
        have hx' : x ∈ a :: bs := (List.perm_orderedInsert R a bs).mem_iff.1 hx
        rcases List.mem_cons.1 hx' with hx' | hx'
        · rcases htot b (List.mem_cons_self _ _) with hba | hba
          · exact absurd hba hab
          · rw [hx']
            exact hba
        · exact hl.1 x hx'

theorem pairwise_insertionSort_local {α : Type} (R : α → α → Prop)
    [DecidableRel R] (l : List α)
    (htot : ∀ a ∈ l, ∀ b ∈ l, R a b ∨ R b a)
    (htrans : ∀ a ∈ l, ∀ b ∈ l, ∀ c ∈ l, R a b → R b c → R a c) :
    (l.insertionSort R).Pairwise R := by
  induction l with
  | nil => simp
  | cons a l ih =>
      rw [List.insertionSort]
      refine pairwise_orderedInsert_local R a _
        (ih (fun x hx y hy => htot x (List.mem_cons_of_mem _ hx)
              y (List.mem_cons_of_mem _ hy))
            (fun x hx y hy z hz => htrans x (List.mem_cons_of_mem _ hx)
              y (List.mem_cons_of_mem _ hy) z (List.mem_cons_of_mem _ hz)))
        ?_ ?_
      · intro b hb
        have hb' : b ∈ l := (List.perm_insertionSort R l).mem_iff.1 hb
        exact htot a (List.mem_cons_self _ _) b (List.mem_cons_of_mem _ hb')
      · intro b hb c hc
        have hb' : b ∈ l := (List.perm_insertionSort R l).mem_iff.1 hb
        have hc' : c ∈ l := (List.perm_insertionSort R l).mem_iff.1 hc
        exact htrans a (List.mem_cons_self _ _) b (List.mem_cons_of_mem _ hb')
          c (List.mem_cons_of_mem _ hc')

theorem oddsRows_pairwise_of (s : OddsSnapshot)
    (hline : ∀ r ∈ preRows s.odds, (lineNum r).isSome)
    (hclass : ∀ r1 ∈ preRows s.odds, ∀ r2 ∈ preRows s.odds,
      dvalEq ((lineNum r1).getD (0, 0)) ((lineNum r2).getD (0, 0)) →
      (isOURow r1 ↔ isOURow r2)) :
    (oddsRows s).Pairwise rowLe := by
  unfold oddsRows sortRows
  refine pairwise_insertionSort_local rowLe _ ?_ ?_
  · intro a _ b _
    exact rowLe_total a b
  · intro a haM b hbM c hcM h1 h2
    obtain ⟨la, hla⟩ := Option.isSome_iff_exists.1 (hline a haM)
    obtain ⟨lb, hlb⟩ := Option.isSome_iff_exists.1 (hline b hbM)
    obtain ⟨lc, hlc⟩ := Option.isSome_iff_exists.1 (hline c hcM)
    refine rowLe_trans_local hla hlb hlc ?_ ?_ h1 h2
    · intro heq
      refine hclass a haM b hbM ?_
      rw [hla, hlb]
      exact heq
    · intro heq
      refine hclass b hbM c hcM ?_
      rw [hlb, hlc]
      exact heq

def odSpreadM35 : OutcomeData :=
  ⟨some "-110", "spread", some "-3.5", none, some "Home", none, "t12"⟩

def odSpreadP35 : OutcomeData :=
  ⟨some "-105", "spread", some "3.5", none, some "Away", none, "t13"⟩

def odMLeven : OutcomeData :=
  ⟨some "+100", "moneyline", none, none, some "Home", none, "t14"⟩

def c3Snap : OddsSnapshot :=
  ⟨"nfl", "g2", "Home", "Away", "Home vs Away", some "spread",
    [("bk", [("s1", odSpreadM35), ("s2", odSpreadP35), ("m1", odMLeven)])], false⟩

def c34Snap : OddsSnapshot :=
  ⟨"nfl", "g2", "Home", "Away", "Home vs Away", some "spread",
    [("bk", [("s1", odSpreadM35), ("s2", odSpreadP35)])], false⟩

/-- C3 (counterexample). The claim says the spread −3.5 and +3.5 rows are
adjacent after sorting. The rows carry no pairId, and the sort key is the
signed numeric line, so in `c3Snap` a moneyline row (line treated as 0)
lands between −3.5 and +3.5: the two spread rows sit at indices 0 and 2. -/
theorem spread_pair_adjacent_false :
    ¬ (∀ (i j : Fin (oddsRows c3Snap).length),
        ((oddsRows c3Snap).get i).outcomeName = "spread" →
        ((oddsRows c3Snap).get i).outcomeLine = some "-3.5" →
        ((oddsRows c3Snap).get j).outcomeName = "spread" →
        ((oddsRows c3Snap).get j).outcomeLine = some "3.5" →
        Nat.dist i.1 j.1 = 1) := by
  decide

/-- C3 (amended). The projected rows carry no pairId; the spread −3.5 row
sorts strictly before the spread +3.5 row (numeric line ascending), but
the two need not be adjacent — any row whose line value falls strictly
between them separates them. Stated for snapshots whose rows all have
parseable lines and whose equal-line rows agree on being Over/Under rows
(the comparator is only a total preorder under these conditions). -/
theorem spread_rows_sorted_before (s : OddsSnapshot)
    (hline : ∀ r ∈ preRows s.odds, (lineNum r).isSome)
    (hclass : ∀ r1 ∈ preRows s.odds, ∀ r2 ∈ preRows s.odds,
      dvalEq ((lineNum r1).getD (0, 0)) ((lineNum r2).getD (0, 0)) →
      (isOURow r1 ↔ isOURow r2))
    (i j : Fin (oddsRows s).length)
    (hi : ((oddsRows s).get i).outcomeLine = some "-3.5")
    (hj : ((oddsRows s).get j).outcomeLine = some "3.5") :
    i.1 < j.1 := by
  have hPW := oddsRows_pairwise_of s hline hclass
  have hlinei : lineNum ((oddsRows s).get i) = some ((-35 : Int), 1) := by
    unfold lineNum
    rw [hi]
    decide
  have hlinej : lineNum ((oddsRows s).get j) = some ((35 : Int), 1) := by
    unfold lineNum
    rw [hj]
    decide
  rcases Nat.lt_trichotomy i.1 j.1 with h | h | h
  · exact h
  · exfalso
    have hij : i = j := Fin.ext h
    rw [hij, hlinej] at hlinei
    exact absurd hlinei (by decide)
  · exfalso
    have hle : rowLe ((oddsRows s).get j) ((oddsRows s).get i) :=
      (List.pairwise_iff_get.mp hPW) j i h
    apply hle
    rw [rowCmp_of_lines _ _ hlinej hlinei]
    exact rowCmpTie_of_gt _ _ (by decide)

/-- Witness for C3's amended theorem: with only the two spread outcomes,
the −3.5 row is at index 0 and the +3.5 row at index 1. -/
theorem spread_rows_sorted_before_witness :
    ((∀ r ∈ preRows c34Snap.odds, (lineNum r).isSome)
      ∧ ((oddsRows c34Snap).get ⟨0, by decide⟩).outcomeLine = some "-3.5"
      ∧ ((oddsRows c34Snap).get ⟨1, by decide⟩).outcomeLine = some "3.5")
    ∧ (0 : Nat) < 1 :=
  ⟨⟨by decide, by decide, by decide⟩,
    spread_rows_sorted_before c34Snap (by decide) (by decide)
      ⟨0, by decide⟩ ⟨1, by decide⟩ (by decide) (by decide)⟩

/-- The spec's group key for C4, modelled from the claim's words for
refutation: groups are keyed by the absolute value of the outcome line. -/
def specGroupAbs (r : OddsRow) : DecNum :=
  (|((lineNum r).getD (0, 0)).1|, ((lineNum r).getD (0, 0)).2)

/-- C4 (counterexample). The claim orders rows primarily by pairId group
with groups sorted by |line| ascending. The code sorts by the signed line:
in `c3Snap` the spread −3.5 row (|line| = 3.5) precedes the moneyline row
(|line| = 0), so consecutive rows are not ordered by |line| ascending. -/
theorem rows_grouped_by_abs_line_false :
    ¬ (∀ i j : Fin (oddsRows c3Snap).length,
        i.1 + 1 = j.1 →
        ¬ dvalLt (specGroupAbs ((oddsRows c3Snap).get j))
            (specGroupAbs ((oddsRows c3Snap).get i))) := by
  decide

/-- C4 (amended). There is no pairId grouping: `oddsRows` sorts by the
code's comparator — numeric `parseFloat` line ascending with a null/empty
line treated as 0, then Over before Under, then label — and on snapshots
whose rows all have parseable lines and whose equal-line rows agree on
being Over/Under rows, the output is pairwise ordered by that comparator;
the projection is a pure function of the snapshot, so recomputation is
deterministic. -/
theorem oddsRows_sorted_by_comparator (s : OddsSnapshot)
    (hline : ∀ r ∈ preRows s.odds, (lineNum r).isSome)
    (hclass : ∀ r1 ∈ preRows s.odds, ∀ r2 ∈ preRows s.odds,
      dvalEq ((lineNum r1).getD (0, 0)) ((lineNum r2).getD (0, 0)) →
      (isOURow r1 ↔ isOURow r2)) :
    (oddsRows s).Pairwise rowLe :=
  oddsRows_pairwise_of s hline hclass

/-- Witness for C4's amended theorem at the two-spread snapshot. -/
theorem oddsRows_sorted_by_comparator_witness :
    ((∀ r ∈ preRows c34Snap.odds, (lineNum r).isSome)
      ∧ (∀ r1 ∈ preRows c34Snap.odds, ∀ r2 ∈ preRows c34Snap.odds,
          dvalEq ((lineNum r1).getD (0, 0)) ((lineNum r2).getD (0, 0)) →
          (isOURow r1 ↔ isOURow r2)))
    ∧ (oddsRows c34Snap).Pairwise rowLe :=
  ⟨⟨by decide, by decide⟩,
    oddsRows_sorted_by_comparator c34Snap (by decide) (by decide)⟩
